import Mathlib

/-!
Shallow embedding of the static-scheduler sources (`src/`): the graph model
(`graph_model.py`), job expansion (`builder.py`), architecture (`arch_model.py`),
the algorithm policies (`algorithm.py`), the initial mapper (`mapper.py`), the
timeline scheduler (`scheduler.py`) and the objective (`objective.py`), together
with theorems settling the frozen claims about them.

Conventions used throughout the embedding:
 - Python `int` is `Int` (ℕ for ids and counts), Python `float` arithmetic is
   idealised as exact arithmetic in a linear ordered field (ℚ where the source
   only adds and divides integers, ℝ where the RM bound takes the real root
   `2 ** (1 / n)`).
 - Fallible code returns `Except`: each raise site of the source is an
   `.error` constructor, and attribute or index accesses that fail in Python
   (`[-1]` on an empty collection, attribute lookup on an `int`) are modelled
   by the corresponding error value.
 - Python `sorted` is modelled by a stable insertion sort on lists, `dict`s
   and `SortedSet`s by lists carried in their iteration order.
-/

deriving instance DecidableEq for Except

namespace Thesis

/-- Python built-in `slice(start, stop)` as the source uses it for windows and
execution slices: a pair of integer bounds (the `step` field is never set). -/
structure PyS where
  start : Int
  stop : Int
deriving DecidableEq

/-- `graph_model.Task`: the static attributes of a task (`id`, `app` back
reference by name, `wcet`, `period`, `deadline`, `criticality`).  The owned
`jobs` collection lives in `TaskNode` to break the `Task`/`Job` reference
cycle of the source. -/
structure Task where
  id : ℕ
  app : String
  wcet : ℕ
  period : ℕ
  deadline : ℕ
  criticality : ℕ
deriving DecidableEq

/-- `graph_model.Task.workload`: `self.wcet / self.period`. -/
def Task.workload (t : Task) : ℚ :=
  (t.wcet : ℚ) / (t.period : ℚ)

/-- `graph_model.Job`: a task instance with its scheduling window, execution
window and execution slices.  `execution` is the job's `SortedSet[Slice]`
carried in its sorted iteration order; each slice is kept as its `(start,
stop)` bounds, the `job` back reference being the enclosing `Job` itself. -/
structure Job where
  task : Task
  sched_window : PyS
  exec_window : PyS
  execution : List PyS := []
deriving DecidableEq

/-- A `graph_model.Task` together with the `jobs` it owns (ascending
`exec_window.start` order, the `SortedSet` iteration order of the source). -/
structure TaskNode where
  task : Task
  jobs : List Job := []
deriving DecidableEq

/-- `graph_model.App`: name, `order` flag and owned tasks in declared order. -/
structure App where
  name : String
  order : Bool
  tasks : List TaskNode := []
deriving DecidableEq

/-- `graph_model.Graph`: a `NamedTuple` of the apps and the hyperperiod. -/
structure Graph where
  apps : List App
  hyperperiod : ℕ
deriving DecidableEq

/-- Errors raised by the `graph_model` functions. -/
inductive GraphErr where
  /-- `RuntimeError` raised by `Slice.__init__`. -/
  | runtimeError
  /-- `IndexError`: `[-1]` or `[0]` on an empty collection. -/
  | indexError
  /-- `AttributeError`: attribute lookup on an object that lacks it. -/
  | attributeError
deriving DecidableEq

/-- The constructed `graph_model.Slice` value: job back reference and bounds. -/
structure GSlice where
  job : Job
  start : Int
  stop : Int
deriving DecidableEq

/-- `graph_model.Slice.__init__`: raises `RuntimeError` when `stop <= start`,
and when `start < job.sched_window.start or stop > job.sched_window.stop`
(the guard reads `sched_window`, the message prints `exec_window`). -/
def Slice_init (job : Job) (start stop : Int) : Except GraphErr GSlice :=
  if stop ≤ start then
    .error .runtimeError
  else if start < job.sched_window.start ∨ job.sched_window.stop < stop then
    .error .runtimeError
  else
    .ok ⟨job, start, stop⟩

/-- Python `collection[-1]`: the last element, `IndexError` when empty. -/
def lastD : List α → Except GraphErr α
  | [] => .error .indexError
  | [a] => .ok a
  | _ :: a :: rest => lastD (a :: rest)

/-- The loop body of `graph_model.App.has_order_miss`: for each adjacent task
pair `(self[i], self[i+1])` compare
`self[i+1].jobs[-1].execution[-1].start < self[i].jobs[-1].execution[-1].stop`
(the left operand is evaluated first, as in the source). -/
def has_order_miss_pairs : List TaskNode → Except GraphErr Bool
  | t1 :: t2 :: rest => do
    let j2 ← lastD t2.jobs
    let s2 ← lastD j2.execution
    let j1 ← lastD t1.jobs
    let s1 ← lastD j1.execution
    if s2.start < s1.stop then pure true else has_order_miss_pairs (t2 :: rest)
  | _ => pure false

/-- `graph_model.App.has_order_miss`: `False` when the app has fewer than two
tasks or `order` is unset, otherwise the scan over adjacent last-job pairs. -/
def has_order_miss (app : App) : Except GraphErr Bool :=
  if app.tasks.length < 2 ∨ app.order = false then .ok false
  else has_order_miss_pairs app.tasks

/-- An item yielded by `for app in self` inside `graph_model.Graph` methods:
`Graph` is a `NamedTuple`, so the loop iterates the tuple FIELDS `(apps,
hyperperiod)`, not the applications. -/
inductive GraphItem where
  | appsField (apps : List App)
  | hyperField (h : ℕ)

/-- The `app.order` access of `Graph.check_task_ordering` performed on a tuple
field: neither a `SortedSet` nor an `int` has an `order` attribute. -/
def GraphItem.orderAttr : GraphItem → Except GraphErr Bool
  | _ => .error .attributeError

/-- The `app.has_order_miss()` access of `Graph.check_task_ordering` performed
on a tuple field: neither object has a `has_order_miss` attribute either. -/
def GraphItem.orderMissAttr : GraphItem → Except GraphErr Bool
  | _ => .error .attributeError

/-- The `for app in self` loop of `Graph.check_task_ordering`. -/
def check_task_ordering_loop : List GraphItem → Except GraphErr Bool
  | [] => pure true
  | item :: rest => do
    if (← item.orderAttr) then
      if (← item.orderMissAttr) then pure false else check_task_ordering_loop rest
    else check_task_ordering_loop rest

/-- `graph_model.Graph.check_task_ordering`: iterates `self` — the `NamedTuple`
fields `(apps, hyperperiod)` — and asks each item for `.order`. -/
def check_task_ordering (g : Graph) : Except GraphErr Bool :=
  check_task_ordering_loop [GraphItem.appsField g.apps, GraphItem.hyperField g.hyperperiod]

/-! ### builder.py -/

/-- The multiset of task periods `{task.period for app in apps for task in app}`
(kept as a list; duplicates do not change the lcm below). -/
def graph_periods (apps : List App) : List ℕ :=
  apps.flatMap (fun a => a.tasks.map (fun n => n.task.period))

/-- `builder._compute_hyperperiod`: `lcm(*periods)` (`lcm()` of nothing is 1). -/
def _compute_hyperperiod (apps : List App) : ℕ :=
  (graph_periods apps).foldr Nat.lcm 1

/-- The jobs `builder._create_jobs` adds to one task:
`for i in range(int(hyperperiod / task.period)): window = slice(start, start +
task.deadline); task.jobs.add(Job(task, window, window))`.
A task with `period = 0` raises `ZeroDivisionError` in the source; the
embedding is only used for tasks with a positive period. -/
def _create_jobs_for_task (t : Task) (hyperperiod : ℕ) : List Job :=
  (List.range (hyperperiod / t.period)).map (fun i =>
    { task := t
      sched_window := ⟨(i * t.period : ℕ), ((i * t.period + t.deadline : ℕ) : Int)⟩
      exec_window := ⟨(i * t.period : ℕ), ((i * t.period + t.deadline : ℕ) : Int)⟩
      execution := [] })

/-- `builder._create_jobs`: populate every task of every app with its jobs. -/
def _create_jobs (apps : List App) (hyperperiod : ℕ) : List App :=
  apps.map (fun a =>
    { a with tasks := a.tasks.map (fun n =>
        { n with jobs := _create_jobs_for_task n.task hyperperiod }) })

/-! ### arch_model.py -/

/-- `arch_model.Core`: id and the tasks mapped to it (the `processor` back
reference is dropped; cores are always reached through their processor). -/
structure Core where
  id : ℕ
  tasks : List TaskNode := []
deriving DecidableEq

/-- `arch_model.Core.workload`: `fsum(task.workload for task in self)` and
`0.0` for no tasks (the sum over the empty list). -/
def Core.workload (c : Core) : ℚ :=
  (c.tasks.map (fun n => n.task.workload)).sum

/-- `arch_model.Processor`: id, owned cores and the apps mapped to it. -/
structure Processor where
  id : ℕ
  cores : List Core := []
  apps : List App := []
deriving DecidableEq

/-- `arch_model.Processor.workload`: sum of the core workloads. -/
def Processor.workload (p : Processor) : ℚ :=
  (p.cores.map Core.workload).sum

/-! ### algorithm.py -/

/-- Error raised by `_local_check_rm`. -/
inductive AlgErr where
  /-- `ZeroDivisionError` from `1 / len(tasks)` on an empty task sequence. -/
  | zeroDivisionError
deriving DecidableEq

/-- `fsum(task.workload for task in tasks)`, valued in the idealised float
field `α`. -/
def fsum_workloads {α : Type} [LinearOrderedField α] (tasks : List TaskNode) : α :=
  (tasks.map (fun n => ((n.task.workload : ℚ) : α))).sum

/-- `algorithm._local_check`: the violation pair when the workload exceeds the
sufficient condition, `None` otherwise. -/
def _local_check {α : Type} [LinearOrderedField α] (total_workload sufficient_condition : α) :
    Option (α × α) :=
  if sufficient_condition < total_workload then some (total_workload, sufficient_condition)
  else none

/-- `algorithm._local_check_edf`:
`_local_check(fsum(...), len(cores) * security_margin)`. -/
def _local_check_edf {α : Type} [LinearOrderedField α]
    (cores : List Core) (tasks : List TaskNode) (security_margin : α) : Option (α × α) :=
  _local_check (fsum_workloads tasks) ((cores.length : α) * security_margin)

/-- `algorithm._local_check_rm`:
`_local_check(fsum(...), len(cores) * security_margin * (len(tasks) * (2**(1 /
len(tasks)) - 1)))`.  On an empty task sequence the inner `1 / len(tasks)`
raises `ZeroDivisionError` before anything else is computed. -/
noncomputable def _local_check_rm
    (cores : List Core) (tasks : List TaskNode) (security_margin : ℝ) :
    Except AlgErr (Option (ℝ × ℝ)) :=
  if tasks.length = 0 then .error .zeroDivisionError
  else .ok (_local_check (fsum_workloads tasks)
    ((cores.length : ℝ) * security_margin *
      ((tasks.length : ℝ) * ((2 : ℝ) ^ ((1 : ℝ) / (tasks.length : ℝ)) - 1))))

/-- Stable insertion into a list sorted ascending by the integer `key`. -/
def insert_by_key {β : Type} (key : β → Int) (x : β) : List β → List β
  | [] => [x]
  | y :: ys => if key y < key x then y :: insert_by_key key x ys else x :: y :: ys

/-- Python `sorted(l, key=key)`: stable sort ascending by `key`. -/
def sort_by_key {β : Type} (key : β → Int) : List β → List β
  | [] => []
  | x :: xs => insert_by_key key x (sort_by_key key xs)

/-- The EDF job ordering: `sorted(jobs, key=lambda job: job.sched_window.stop)`. -/
def edf_ordering : List Job → List Job :=
  sort_by_key (fun j => j.sched_window.stop)

/-- The RM job ordering: `sorted(jobs, key=lambda job: job.task.period)`. -/
def rm_ordering : List Job → List Job :=
  sort_by_key (fun j => (j.task.period : Int))

/-- `algorithm.SchedAlgorithm`, generic over the idealised float field. -/
structure SchedAlgorithm (α : Type) [LinearOrderedField α] where
  name : String
  security_margin : α
  local_scheduling_check : List Core → List TaskNode → α → Except AlgErr (Option (α × α))
  scheduler : List Job → List Job

/-- The `"edf"` entry of `algorithm.algorithms`. -/
def edf_algorithm (α : Type) [LinearOrderedField α] : SchedAlgorithm α :=
  { name := "Earliest Deadline First"
    security_margin := (9 : α) / 10
    local_scheduling_check := fun cores tasks margin => .ok (_local_check_edf cores tasks margin)
    scheduler := edf_ordering }

/-- The `"rm"` entry of `algorithm.algorithms`. -/
noncomputable def rm_algorithm : SchedAlgorithm ℝ :=
  { name := "Rate monotonic"
    security_margin := (9 : ℝ) / 10
    local_scheduling_check := _local_check_rm
    scheduler := rm_ordering }

/-! ### mapper.py -/

/-- Errors raised by `mapper.mapping`. -/
inductive MapErr (α : Type) where
  /-- An exception propagated out of the algorithm's local check. -/
  | algError (e : AlgErr)
  /-- `RuntimeError(f"Initial mapping failed with app '{app.name}' on CPU
  '{cpu.id}': {result}.")`. -/
  | initialMappingFailed (appName : String) (cpuId : ℕ) (violation : α × α)
  /-- `ValueError` from `min()` over an empty core collection. -/
  | valueError
  /-- `queue.PriorityQueue.get()` on an empty queue blocks forever; modelled
  as an error (never reached for a non-empty architecture). -/
  | queueBlocked
deriving DecidableEq

/-- `min()` over a sequence by a rational key: index and value of the first
element attaining the minimum, `none` when the sequence is empty. -/
def argmin_by {β : Type} (f : β → ℚ) : List β → Option (ℕ × β)
  | [] => none
  | x :: xs =>
    match argmin_by f xs with
    | none => some (0, x)
    | some (j, y) => if f y < f x then some (j + 1, y) else some (0, x)

/-- `cpu_pqueue.get()`: pop a least-workload CPU from the queue (the heap is
modelled by extracting the first CPU attaining the minimal workload). -/
def pq_get {α : Type} (queue : List Processor) :
    Except (MapErr α) (Processor × List Processor) :=
  match argmin_by Processor.workload queue with
  | none => .error .queueBlocked
  | some (i, cpu) => .ok (cpu, queue.eraseIdx i)

/-- `cpu.min_core()`: `min(self)` over the cores by workload. -/
def min_core_idx (cores : List Core) : Option (ℕ × Core) :=
  argmin_by Core.workload cores

/-- One `cpu.min_core().tasks.append(task)` step of the acceptance branch of
`mapper.mapping`: append the task to the currently least-loaded core
(`min()` over an empty core collection raises `ValueError`). -/
def place_task {α : Type} (c : Processor) (node : TaskNode) : Except (MapErr α) Processor :=
  match min_core_idx c.cores with
  | none => .error .valueError
  | some (i, core) =>
    .ok { c with cores := c.cores.set i { core with tasks := core.tasks ++ [node] } }

/-- The acceptance branch of `mapper.mapping`: `cpu.apps.add(app)` followed by
`for task in app: cpu.min_core().tasks.append(task)` (the minimum is
recomputed after every append, since the appended task changes the core's
workload). -/
def accept_app {α : Type} (cpu : Processor) (app : App) : Except (MapErr α) Processor :=
  app.tasks.foldlM place_task { cpu with apps := cpu.apps ++ [app] }

/-- One iteration of the `for app in apps` loop of `mapper.mapping`: pop the
least-loaded CPU; accept when it has no apps yet (the check is short-circuited)
or when the local check returns `None`; raise otherwise; push the CPU back. -/
def map_step {α : Type} [LinearOrderedField α]
    (alg : SchedAlgorithm α) (queue : List Processor) (app : App) :
    Except (MapErr α) (List Processor) := do
  let (cpu, rest) ← pq_get queue
  if cpu.apps = [] then
    let cpu' ← accept_app cpu app
    pure (rest ++ [cpu'])
  else
    match alg.local_scheduling_check cpu.cores app.tasks alg.security_margin with
    | .error e => .error (.algError e)
    | .ok none => do
      let cpu' ← accept_app cpu app
      pure (rest ++ [cpu'])
    | .ok (some v) => .error (.initialMappingFailed app.name cpu.id v)

/-- The final loop of `mapper.mapping`: `core_jobs[core] = [job for task in
core for job in task]` for every core with tasks. -/
def build_core_jobs (cpus : List Processor) : List (Core × List Job) :=
  cpus.flatMap (fun cpu =>
    (cpu.cores.filter (fun c => !c.tasks.isEmpty)).map
      (fun c => (c, c.tasks.flatMap TaskNode.jobs)))

/-- `mapper.mapping`: push every CPU, process the apps in order, then collect
the core-to-jobs map.  The architecture set and the priority queue are carried
as one CPU list (a popped CPU is pushed back after its app is placed). -/
def mapping {α : Type} [LinearOrderedField α]
    (arch : List Processor) (apps : List App) (alg : SchedAlgorithm α) :
    Except (MapErr α) (List (Core × List Job)) := do
  let queue ← apps.foldlM (map_step alg) arch
  pure (build_core_jobs queue)

/-! ### model.py plumbing (Parameters / Configuration / Problem / Solution)

The `Parameters`, `Configuration`, `Problem` and `Solution` records are
reconstructed from their uses in `scheduler.py` (`Solution(problem,
core_jobs)`) and `objective.py` (`solution.problem.config.params.switch_time`,
`solution.core_jobs`, `solution.problem.graph.hyperperiod`); only the fields
those uses touch are kept. -/

/-- The scheduling parameters; only `switch_time` is consumed by the embedded
fragment. -/
structure Params where
  switch_time : Int
deriving DecidableEq

/-- `model.Configuration`: binds the parameters (file paths dropped). -/
structure Configuration where
  params : Params
deriving DecidableEq

/-- `model.Problem`: configuration, architecture and graph. -/
structure Problem where
  config : Configuration
  arch : List Processor
  graph : Graph
deriving DecidableEq

/-- The `Solution(problem, core_jobs)` record built by `scheduler.schedule`. -/
structure Solution where
  problem : Problem
  core_jobs : List (Core × List Job)
deriving DecidableEq

/-! ### scheduler.py -/

/-- Errors raised by `scheduler.py` and `objective.py`. -/
inductive SchedErr where
  /-- `AttributeError`: attribute access on an object that lacks it. -/
  | attributeError
  /-- `RuntimeError` of `global_schedulability_test`, carrying the total
  workload and the sufficient condition printed in its message. -/
  | globalAdmission (total_workload sufficient_condition : ℚ)
  /-- `RuntimeError` of `_check_no_intersect`: two slices intersect. -/
  | intersectError
  /-- `RuntimeError` of `_get_slices`: not enough running time. -/
  | notEnoughTime
  /-- `RuntimeError` of `schedule`, naming the failing core. -/
  | initialSchedulingFailed (coreId : ℕ)
  /-- `IndexError`: indexing an empty list. -/
  | indexError
deriving DecidableEq

/-- The local `total_workload` of `global_schedulability_test`:
`fsum(task.workload for app in problem.graph.apps for task in app)`. -/
def problem_total_workload (p : Problem) : ℚ :=
  ((p.graph.apps.flatMap App.tasks).map (fun n => n.task.workload)).sum

/-- The local `sufficient_condition` of `global_schedulability_test`:
`sum(len(cpu) for cpu in problem.arch) * security_margin` with the security
margin 0.9. -/
def problem_sufficient_condition (p : Problem) : ℚ :=
  ((p.arch.map (fun cpu => (cpu.cores.length : ℚ))).sum) * (9 / 10)

/-- `scheduler.global_schedulability_test`: admit when the total workload is
at most `sum(len(cpu) for cpu in problem.arch) * 0.9`, raise otherwise. -/
def global_schedulability_test (problem : Problem) : Except SchedErr Bool :=
  if problem_total_workload problem ≤ problem_sufficient_condition problem then .ok true
  else .error (.globalAdmission (problem_total_workload problem)
    (problem_sufficient_condition problem))

/-- `scheduler._overlap_before`. -/
def _overlap_before (slice1 slice2 : PyS) : Bool :=
  decide ((slice1.start < slice2.start ∧ slice2.start < slice1.stop ∧ slice1.stop ≤ slice2.stop)
    ∨ (slice1.start = slice2.start ∧ slice1.stop < slice2.stop))

/-- `scheduler._overlap_after`. -/
def _overlap_after (slice1 slice2 : PyS) : Bool :=
  decide ((slice2.start ≤ slice1.start ∧ slice1.start < slice2.stop ∧ slice2.stop < slice1.stop)
    ∨ (slice2.start < slice1.start ∧ slice1.stop = slice2.stop))

/-- `scheduler._inside`. -/
def _inside (slice1 slice2 : PyS) : Bool :=
  decide (slice2.start < slice1.start ∧ slice1.stop < slice2.stop)

/-- `scheduler._intersect`. -/
def _intersect (slice1 slice2 : PyS) : Bool :=
  decide (slice1 = slice2) || _overlap_before slice1 slice2 || _overlap_after slice1 slice2
    || _inside slice1 slice2 || _inside slice2 slice1

/-- `scheduler._check_no_intersect`: raise when any two slices of the list
intersect. -/
def _check_no_intersect : List PyS → Except SchedErr Unit
  | [] => .ok ()
  | s :: rest =>
    if rest.any (fun t => _intersect s t) then .error .intersectError
    else _check_no_intersect rest

/-- Stable insertion for `sorted(slices, key=lambda s: s.start)`. -/
def insert_by_start (s : PyS) : List PyS → List PyS
  | [] => [s]
  | t :: ts => if t.start < s.start then t :: insert_by_start s ts else s :: t :: ts

/-- `sorted(slices, key=lambda s: s.start)`. -/
def sort_by_start : List PyS → List PyS
  | [] => []
  | s :: ss => insert_by_start s (sort_by_start ss)

/-- `scheduler._get_intersecting_slices`: collect, from the jobs whose
scheduling window intersects the target's, the execution slices intersecting
the target's scheduling window; check them pairwise disjoint; sort by start. -/
def _get_intersecting_slices (target_job : Job) (jobs : List Job) :
    Except SchedErr (List PyS) := do
  let slices :=
    (jobs.filter (fun job => _intersect target_job.sched_window job.sched_window)).flatMap
      (fun job => job.execution.filter (fun s => _intersect target_job.sched_window s))
  _check_no_intersect slices
  pure (sort_by_start slices)

/-- Result of the middle-gap loop of `_get_slices`: either an early `return`
with the finished slice list, or fall-through with the remaining runtime and
the slices accumulated so far. -/
inductive GapRes where
  | early (res : List PyS)
  | fallthrough (remaining : Int) (acc : List PyS)

/-- The `for i in range(len(slices) - 1)` loop of `_get_slices`, walking the
gaps between consecutive forbidden slices. -/
def mid_gaps (remaining : Int) (acc : List PyS) : List PyS → GapRes
  | s1 :: s2 :: rest =>
    let space := s2.start - s1.stop
    if 0 < space then
      if remaining ≤ space then .early (acc ++ [⟨s1.stop, s1.stop + remaining⟩])
      else mid_gaps (remaining - space) (acc ++ [⟨s1.stop, s1.stop + space⟩]) (s2 :: rest)
    else mid_gaps remaining acc (s2 :: rest)
  | _ => .fallthrough remaining acc

/-- `scheduler._get_slices`: candidate slices for a job around the already
placed slices, walking leading space, middle gaps and trailing space.  No gap
is ever shrunk: the function never reads `switch_time` or any criticality.
The trailing branch appends the whole trailing space (`slices[-1].stop +
space`), as the source does. -/
def _get_slices (job : Job) (jobs : List Job) : Except SchedErr (List PyS) := do
  let slices ← _get_intersecting_slices job jobs
  match slices with
  | [] => pure [⟨job.exec_window.start, job.exec_window.start + (job.task.wcet : Int)⟩]
  | s0 :: tail =>
    let ew := job.exec_window
    let wcet : Int := (job.task.wcet : Int)
    if ew.start < s0.start ∧ wcet ≤ s0.start - ew.start then
      pure [⟨ew.start, ew.start + wcet⟩]
    else
      let remaining := if ew.start < s0.start then wcet - (s0.start - ew.start) else wcet
      let acc : List PyS := if ew.start < s0.start then [⟨ew.start, s0.start⟩] else []
      match mid_gaps remaining acc (s0 :: tail) with
      | .early res => pure res
      | .fallthrough rem acc2 =>
        let lastS := (s0 :: tail).getLast (List.cons_ne_nil s0 tail)
        if lastS.stop < ew.stop then
          if rem ≤ ew.stop - lastS.stop then pure (acc2 ++ [⟨lastS.stop, ew.stop⟩])
          else .error .notEnoughTime
        else pure acc2

/-- The loop body of `scheduler._generate_exec_slices`: consume candidate
slices until the WCET is covered, truncating the last one. -/
def _generate_exec_slices_go (target_runtime : Int) : List PyS → List PyS
  | [] => []
  | s :: rest =>
    if target_runtime ≤ s.stop - s.start then [⟨s.start, s.start + target_runtime⟩]
    else s :: _generate_exec_slices_go (target_runtime - (s.stop - s.start)) rest

/-- `scheduler._generate_exec_slices`. -/
def _generate_exec_slices (job : Job) (slices : List PyS) : List PyS :=
  _generate_exec_slices_go (job.task.wcet : Int) slices

/-- The runtime check of `_create_execution_slices`:
`reduce(lambda s1, s2: (s1.stop - s1.start) + (s2.stop - s2.start), slices, 0)`.
The initial accumulator is the `int` 0, so on any non-empty list the first
application of the lambda evaluates `(0).stop` and raises `AttributeError`;
on the empty list `reduce` returns the initial 0. -/
def reduce_runtime : List PyS → Except SchedErr Int
  | [] => .ok 0
  | _ :: _ => .error .attributeError

/-- `job.execution.extend(slices)`: `sortedcontainers.SortedSet` has no
`extend` attribute (its bulk-insert method is `update`), so this attribute
access raises `AttributeError`. -/
def extend_execution (_job : Job) (_slices : List PyS) : Except SchedErr Unit :=
  .error .attributeError

/-- The `for job in jobs` loop of `scheduler._create_execution_slices`; the
first argument is the full job set passed to `_get_slices` at each step. -/
def _create_execution_slices_go (jobs : List Job) : List Job → Except SchedErr Bool
  | [] => pure true
  | job :: rest => do
    let slices ← _get_slices job jobs
    let runtime ← reduce_runtime slices
    if runtime = (job.task.wcet : Int) then do
      extend_execution job slices
      _create_execution_slices_go jobs rest
    else if (job.task.wcet : Int) < runtime then do
      extend_execution job (_generate_exec_slices job slices)
      _create_execution_slices_go jobs rest
    else pure false

/-- `scheduler._create_execution_slices`. -/
def _create_execution_slices (jobs : List Job) : Except SchedErr Bool :=
  _create_execution_slices_go jobs jobs

/-- The `for core, jobs in core_jobs.items()` loop of `scheduler.schedule`. -/
def schedule_go (problem : Problem) (core_jobs : List (Core × List Job))
    (ordering : List Job → List Job) :
    List (Core × List Job) → Except SchedErr Solution
  | [] => .ok ⟨problem, core_jobs⟩
  | (core, jobs) :: rest => do
    let ok ← _create_execution_slices (ordering jobs)
    if ok then schedule_go problem core_jobs ordering rest
    else .error (.initialSchedulingFailed core.id)

/-- `scheduler.schedule`: order each core's jobs, create their execution
slices, and return `Solution(problem, core_jobs)` when every core succeeds. -/
def schedule (core_jobs : List (Core × List Job)) (problem : Problem)
    (ordering : List Job → List Job) : Except SchedErr Solution :=
  schedule_go problem core_jobs ordering core_jobs

/-! ### objective.py -/

/-- `graph_model.Slice.__lt__` as used by `sorted` in the objective: the first
slice lies completely to the left of the second.  Each collected slice carries
the criticality of its job's task (the `slice.job.task.criticality` back
reference). -/
def slice_lt (a b : PyS × ℕ) : Bool :=
  decide (a.1.start < b.1.start ∧ a.1.stop ≤ b.1.start)

/-- Stable insertion for `sorted` over slices with `Slice.__lt__`. -/
def insert_slice (x : PyS × ℕ) : List (PyS × ℕ) → List (PyS × ℕ)
  | [] => [x]
  | y :: ys => if slice_lt y x then y :: insert_slice x ys else x :: y :: ys

/-- `sorted(_slice for job in jobs for _slice in job)`. -/
def sort_slices : List (PyS × ℕ) → List (PyS × ℕ)
  | [] => []
  | x :: xs => insert_slice x (sort_slices xs)

/-- The per-core runtime loop of `objective.cumulated_empty_space`: sum the
slice lengths, adding `switch_time` between adjacent slices of different
criticality; the final `slices[len(slices) - 1]` raises `IndexError` on a
core with no slices. -/
def core_run_time (switch_time : Int) : List (PyS × ℕ) → Except SchedErr Int
  | [] => .error .indexError
  | [s] => .ok (s.1.stop - s.1.start)
  | s1 :: s2 :: rest => do
    let tailTime ← core_run_time switch_time (s2 :: rest)
    pure ((s1.1.stop - s1.1.start) + (if s1.2 ≠ s2.2 then switch_time else 0) + tailTime)

/-- `objective.cumulated_empty_space`: for every core, the hyperperiod minus
the core run time (slice lengths plus switch costs), summed over cores. -/
def cumulated_empty_space (solution : Solution) : Except SchedErr Int :=
  solution.core_jobs.foldlM
    (fun idle entry => do
      let slices := sort_slices
        (entry.2.flatMap (fun job => job.execution.map (fun s => (s, job.task.criticality))))
      let crt ← core_run_time solution.problem.config.params.switch_time slices
      pure (idle + ((solution.problem.graph.hyperperiod : Int) - crt)))
    0

/-! ### Claim-side definitions (stated from the spec's words, for comparison
with the source-derived definitions above) -/

/-- The initial-mapping admission condition as the claim states it: the CPU
holds no apps yet, or the local test accepts the CPU's cores together with
the union of the tasks already mapped to the CPU and the new app's tasks.
Definition taken from the claim's words, to be compared with `map_step`. -/
def claim_union_admits {α : Type} [LinearOrderedField α]
    (alg : SchedAlgorithm α) (cpu : Processor) (app : App) : Prop :=
  cpu.apps = [] ∨
    alg.local_scheduling_check cpu.cores (cpu.cores.flatMap Core.tasks ++ app.tasks)
      alg.security_margin = .ok none

/-- The last execution slice of the last job of a task (`jobs[-1].execution[-1]`
as a total `Option`-valued accessor). -/
def last_exec_slice (node : TaskNode) : Option PyS :=
  node.jobs.getLast?.bind (fun j => j.execution.getLast?)

/-- The per-index ordering rule as the claim states it: for every job index k
and every adjacent task pair (i, i+1), the k-th job of task i+1 starts its
first slice no earlier than the k-th job of task i stops its last slice.
Definition taken from the claim's words, to be compared with
`has_order_miss`. -/
def claim_per_index_order_ok (app : App) : Prop :=
  ∀ (i k : ℕ) (t1 t2 : TaskNode) (j1 j2 : Job) (s1 s2 : PyS),
    app.tasks[i]? = some t1 → app.tasks[i + 1]? = some t2 →
    t1.jobs[k]? = some j1 → t2.jobs[k]? = some j2 →
    j1.execution.getLast? = some s1 → j2.execution.head? = some s2 →
    s1.stop ≤ s2.start

/-! ### Concrete instances used by individual claims -/

/-- C1 instance: the higher-criticality task (criticality 2, wcet 2). -/
def c1_taskH : Task := ⟨1, "A", 2, 10, 10, 2⟩

/-- C1 instance: the lower-criticality task (criticality 1, wcet 3). -/
def c1_taskL : Task := ⟨2, "A", 3, 10, 10, 1⟩

/-- C1 instance: the already-placed job, one slice `[0, 2)` on the core. -/
def c1_job1 : Job := ⟨c1_taskH, ⟨0, 10⟩, ⟨0, 10⟩, [⟨0, 2⟩]⟩

/-- C1 instance: the job being placed next, of different criticality. -/
def c1_job2 : Job := ⟨c1_taskL, ⟨0, 10⟩, ⟨0, 10⟩, []⟩

/-- C2 witness instance: a task, its single fresh job, and its core. -/
def c2_task : Task := ⟨1, "A", 3, 10, 10, 0⟩

/-- C2 witness instance: one fresh job (empty execution). -/
def c2_job : Job := ⟨c2_task, ⟨0, 10⟩, ⟨0, 10⟩, []⟩

/-- C2 witness instance: the core carrying the job's task. -/
def c2_core : Core := ⟨0, [⟨c2_task, [c2_job]⟩]⟩

/-- C2 witness instance: a minimal problem record. -/
def c2_problem : Problem := ⟨⟨⟨0⟩⟩, [], ⟨[], 10⟩⟩

/-- C3 instance: the single task `{id=1, wcet=3, period=10, deadline=10,
criticality=0}` of the spec's first end-to-end scenario. -/
def c3_task : Task := ⟨1, "A", 3, 10, 10, 0⟩

/-- C3 instance: its single job over the hyperperiod 10. -/
def c3_job : Job := ⟨c3_task, ⟨0, 10⟩, ⟨0, 10⟩, []⟩

/-- C3 instance: the single core. -/
def c3_core : Core := ⟨0, [⟨c3_task, [c3_job]⟩]⟩

/-- C3 instance: one CPU, one core, one app, hyperperiod 10. -/
def c3_problem : Problem :=
  ⟨⟨⟨0⟩⟩, [⟨0, [c3_core], []⟩], ⟨[⟨"A", false, [⟨c3_task, [c3_job]⟩]⟩], 10⟩⟩

/-- C3 instance: the job carrying the slice `[0, 3)` the spec expects. -/
def c3_scheduled_job : Job := ⟨c3_task, ⟨0, 10⟩, ⟨0, 10⟩, [⟨0, 3⟩]⟩

/-- C3 instance: the solution the spec expects `schedule` to produce. -/
def c3_intended_solution : Solution := ⟨c3_problem, [(c3_core, [c3_scheduled_job])]⟩

/-- C4 instance: the single task of app "A" (workload 1/2). -/
def c4_nodeA : TaskNode := ⟨⟨1, "A", 1, 2, 2, 0⟩, []⟩

/-- C4 instance: the single task of app "B" (workload 1/2). -/
def c4_nodeB : TaskNode := ⟨⟨1, "B", 1, 2, 2, 0⟩, []⟩

/-- C4 instance: app "A". -/
def c4_appA : App := ⟨"A", false, [c4_nodeA]⟩

/-- C4 instance: app "B". -/
def c4_appB : App := ⟨"B", false, [c4_nodeB]⟩

/-- C4 instance: one CPU with one empty core. -/
def c4_arch : List Processor := [⟨0, [⟨0, []⟩], []⟩]

/-- C4 instance: the CPU state after app "A" is mapped, at the moment app "B"
is considered. -/
def c4_cpu_afterA : Processor := ⟨0, [⟨0, [c4_nodeA]⟩], [c4_appA]⟩

/-- C4 witness instance: the empty CPU popped for the first app. -/
def c4_cpu0 : Processor := ⟨0, [⟨0, []⟩], []⟩

/-- C5 instance: first task of the ordered app. -/
def c5_t1 : Task := ⟨1, "O", 2, 10, 10, 0⟩

/-- C5 instance: second task of the ordered app. -/
def c5_t2 : Task := ⟨2, "O", 2, 10, 10, 0⟩

/-- C5 instance: job 0 of task 1, last slice stops at 5. -/
def c5_j10 : Job := ⟨c5_t1, ⟨0, 10⟩, ⟨0, 10⟩, [⟨0, 5⟩]⟩

/-- C5 instance: job 1 (the last job) of task 1, last slice stops at 14. -/
def c5_j11 : Job := ⟨c5_t1, ⟨10, 20⟩, ⟨10, 20⟩, [⟨12, 14⟩]⟩

/-- C5 instance: job 0 of task 2, first slice starts at 3 (< 5: the per-index
rule is violated at k = 0). -/
def c5_j20 : Job := ⟨c5_t2, ⟨0, 10⟩, ⟨0, 10⟩, [⟨3, 6⟩]⟩

/-- C5 instance: job 1 (the last job) of task 2, last slice starts at 14 (the
last-job pair the code checks is satisfied). -/
def c5_j21 : Job := ⟨c5_t2, ⟨10, 20⟩, ⟨10, 20⟩, [⟨14, 16⟩]⟩

/-- C5 instance: task 1 with its jobs. -/
def c5_n1 : TaskNode := ⟨c5_t1, [c5_j10, c5_j11]⟩

/-- C5 instance: task 2 with its jobs. -/
def c5_n2 : TaskNode := ⟨c5_t2, [c5_j20, c5_j21]⟩

/-- C5 instance: the ordered app. -/
def c5_app : App := ⟨"O", true, [c5_n1, c5_n2]⟩

/-- C6 witness instance: one task with workload 1 on a one-core architecture
(total workload 1 exceeds the bound 0.9). -/
def c6_problem : Problem :=
  ⟨⟨⟨0⟩⟩, [⟨0, [⟨0, []⟩], []⟩], ⟨[⟨"A", false, [⟨⟨1, "A", 1, 1, 1, 0⟩, []⟩]⟩], 1⟩⟩

/-- C7 witness instance: a single task node. -/
def c7_node : TaskNode := ⟨⟨1, "A", 0, 1, 1, 0⟩, []⟩

/-- C8 instance: a job whose `exec_window` `[5, 10)` has been narrowed inside
its `sched_window` `[0, 10)`. -/
def c8_job : Job := ⟨⟨1, "A", 3, 10, 10, 0⟩, ⟨0, 10⟩, ⟨5, 10⟩, []⟩

/-- C9 witness instance: the single task. -/
def c9_task : Task := ⟨1, "A", 3, 10, 10, 0⟩

/-- C9 witness instance: the input apps. -/
def c9_apps : List App := [⟨"A", false, [⟨c9_task, []⟩]⟩]

/-- C9 witness instance: the job that expansion creates. -/
def c9_job : Job := ⟨c9_task, ⟨0, 10⟩, ⟨0, 10⟩, []⟩

/-- C9 witness instance: the populated task node. -/
def c9_node : TaskNode := ⟨c9_task, [c9_job]⟩

/-- C9 witness instance: the populated app. -/
def c9_app : App := ⟨"A", false, [c9_node]⟩

/-! ## Theorems -/

/-- C1: the claim states that the timeline scheduler keeps a gap of at least
`switch_time` between adjacent slices of different criticality on the same
core.  The code never does: with a slice `[0, 2)` of a criticality-2 job
already on the core and `switch_time = 1`, `_get_slices` hands the
criticality-1 job the candidate `[2, 10)` and `_generate_exec_slices` places
its execution slice `[2, 5)` — abutting the previous slice, gap 0 — because
the slice-placement code never reads `switch_time` or any criticality. -/
theorem C1_switch_time_ignored :
    _get_slices c1_job2 [c1_job1, c1_job2] = .ok [⟨2, 10⟩] ∧
    _generate_exec_slices c1_job2 [⟨2, 10⟩] = [⟨2, 5⟩] ∧
    c1_job1.task.criticality ≠ c1_job2.task.criticality ∧
    (⟨2, 5⟩ : PyS).start - (⟨0, 2⟩ : PyS).stop < (1 : Int) := by
  decide

/-- C3: on the spec's first end-to-end scenario (one CPU, one core, one task
`{id=1, wcet=3, period=10, deadline=10, criticality=0}`, hyperperiod 10),
`schedule` raises `AttributeError` instead of producing the slice `[0, 3)`;
the objective would indeed assign the intended one-slice solution the
cumulated-free-space score 7. -/
theorem C3_seed_scenario_crashes :
    schedule [(c3_core, [c3_job])] c3_problem edf_ordering = .error .attributeError ∧
    cumulated_empty_space c3_intended_solution = .ok 7 := by
  decide

/-- C6: `global_schedulability_test` returns `True` exactly when the total
workload is at most `0.9` times the total number of cores (the boundary case
is admitted), and otherwise raises the error carrying the workload and the
bound. -/
theorem C6_global_admission_boundary (p : Problem) :
    (global_schedulability_test p = .ok true ↔
      problem_total_workload p ≤ problem_sufficient_condition p) ∧
    (¬ problem_total_workload p ≤ problem_sufficient_condition p →
      global_schedulability_test p =
        .error (.globalAdmission (problem_total_workload p) (problem_sufficient_condition p))) := by
  unfold global_schedulability_test
  split_ifs with h
  · exact ⟨⟨(fun _ => h), (fun _ => rfl)⟩, (fun hh => absurd h hh)⟩
  · exact ⟨⟨(fun hh => by cases hh), (fun hh => absurd hh h)⟩, (fun _ => rfl)⟩

/-- C6 witness: a problem with total workload 1 on a single core exceeds the
bound 0.9 and is rejected with the pair carried in the error. -/
theorem C6_global_admission_boundary_witness :
    ¬ problem_total_workload c6_problem ≤ problem_sufficient_condition c6_problem ∧
    global_schedulability_test c6_problem =
      .error (.globalAdmission (problem_total_workload c6_problem)
        (problem_sufficient_condition c6_problem)) :=
  ⟨by norm_num [problem_total_workload, problem_sufficient_condition, c6_problem, Task.workload],
    (C6_global_admission_boundary c6_problem).2
      (by norm_num [problem_total_workload, problem_sufficient_condition, c6_problem,
        Task.workload])⟩

/-- C8 counterexample: the claim states that constructing a slice outside the
job's `exec_window` raises; but for a job with `sched_window = [0, 10)` and
narrowed `exec_window = [5, 10)`, `Slice.__init__` accepts `[0, 3)` even
though it lies outside the execution window — the guard reads `sched_window`.
-/
theorem C8_exec_window_counterexample :
    Slice_init c8_job 0 3 = .ok ⟨c8_job, 0, 3⟩ ∧
    ¬ (c8_job.exec_window.start ≤ 0 ∧ 3 ≤ c8_job.exec_window.stop) := by
  decide

/-- C8 (amended): every successfully constructed `Slice` satisfies
`start < stop` and `[start, stop) ⊆ job.sched_window` — the scheduling
window, not the execution window — and any violation of these two conditions
raises; the constructed value carries the given job and bounds. -/
theorem C8_slice_init_sched_window (job : Job) (start stop : Int) :
    ((∃ s, Slice_init job start stop = .ok s) ↔
      start < stop ∧ job.sched_window.start ≤ start ∧ stop ≤ job.sched_window.stop) ∧
    (∀ s, Slice_init job start stop = .ok s → s = ⟨job, start, stop⟩) := by
  unfold Slice_init
  split_ifs with h1 h2
  · refine ⟨⟨(fun hex => by obtain ⟨s, hs⟩ := hex; cases hs), (fun hh => absurd h1 (by omega))⟩,
      (fun s hs => by cases hs)⟩
  · refine ⟨⟨(fun hex => by obtain ⟨s, hs⟩ := hex; cases hs), (fun hh => ?_)⟩,
      (fun s hs => by cases hs)⟩
    rcases h2 with h2 | h2 <;> omega
  · push_neg at h2
    exact ⟨⟨(fun _ => ⟨by omega, h2.1, by omega⟩), (fun _ => ⟨_, rfl⟩)⟩,
      (fun s hs => by cases hs; rfl)⟩

/-- C8 witness: a construction inside the scheduling window succeeds. -/
theorem C8_slice_init_sched_window_witness :
    ((0 : Int) < 3 ∧ c8_job.sched_window.start ≤ 0 ∧ (3 : Int) ≤ c8_job.sched_window.stop) ∧
    ∃ s, Slice_init c8_job 0 3 = .ok s :=
  ⟨by decide, (C8_slice_init_sched_window c8_job 0 3).1.mpr (by decide)⟩

/-- C10: applying the RM local test to an empty task sequence evaluates
`2 ** (1 / len(tasks))` with `len(tasks) = 0` and raises `ZeroDivisionError`,
for every core sequence and every margin. -/
theorem C10_rm_empty_tasks_zero_division (cores : List Core) (security_margin : ℝ) :
    _local_check_rm cores [] security_margin = .error .zeroDivisionError := by
  simp [_local_check_rm]

/-- Characterisation of `_local_check`: `None` exactly on `total ≤
sufficient`, the pair `(total, sufficient)` otherwise. -/
theorem _local_check_spec {α : Type} [LinearOrderedField α] (total sufficient : α) :
    (_local_check total sufficient = none ↔ total ≤ sufficient) ∧
    (∀ p, _local_check total sufficient = some p → p = (total, sufficient)) := by
  unfold _local_check
  split_ifs with h
  · exact ⟨⟨(fun hh => by cases hh), (fun hh => absurd h (not_lt.mpr hh))⟩,
      (fun p hp => by cases hp; rfl)⟩
  · exact ⟨⟨(fun _ => not_lt.mp h), (fun _ => rfl)⟩, (fun p hp => by cases hp)⟩

/-- C7: the EDF local test returns `None` iff the summed workload is at most
`|cores| * margin` and otherwise returns the violation pair; on a non-empty
task sequence the RM local test behaves identically with the bound
`|cores| * margin * |tasks| * (2^(1/|tasks|) - 1)`. -/
theorem C7_local_tests (cores : List Core) (tasks : List TaskNode) (security_margin : ℝ) :
    (_local_check_edf cores tasks security_margin = none ↔
      fsum_workloads tasks ≤ (cores.length : ℝ) * security_margin) ∧
    (∀ p : ℝ × ℝ, _local_check_edf cores tasks security_margin = some p →
      p = (fsum_workloads tasks, (cores.length : ℝ) * security_margin)) ∧
    (tasks ≠ [] →
      (_local_check_rm cores tasks security_margin = .ok none ↔
        fsum_workloads tasks ≤
          (cores.length : ℝ) * security_margin * (tasks.length : ℝ) *
            ((2 : ℝ) ^ ((1 : ℝ) / (tasks.length : ℝ)) - 1)) ∧
      (∀ q : ℝ × ℝ, _local_check_rm cores tasks security_margin = .ok (some q) →
        q = (fsum_workloads tasks,
          (cores.length : ℝ) * security_margin *
            ((tasks.length : ℝ) * ((2 : ℝ) ^ ((1 : ℝ) / (tasks.length : ℝ)) - 1))))) := by
  refine ⟨(_local_check_spec _ _).1, (_local_check_spec _ _).2, fun hne => ?_⟩
  have hlen : ¬ tasks.length = 0 := fun h => hne (List.length_eq_zero.mp h)
  unfold _local_check_rm
  rw [if_neg hlen]
  constructor
  · simp only [Except.ok.injEq]
    rw [(_local_check_spec _ _).1, mul_assoc ((cores.length : ℝ) * security_margin)]
  · intro q hq
    simp only [Except.ok.injEq] at hq
    exact (_local_check_spec _ _).2 q hq

/-- C7 witness: the RM part of `C7_local_tests` applied to the non-empty task
sequence `[c7_node]` with no cores and margin 0. -/
theorem C7_local_tests_witness :
    (([c7_node] : List TaskNode) ≠ []) ∧
    (_local_check_rm [] [c7_node] 0 = .ok none ↔
      fsum_workloads [c7_node] ≤
        ((([] : List Core)).length : ℝ) * 0 * (([c7_node] : List TaskNode).length : ℝ) *
          ((2 : ℝ) ^ ((1 : ℝ) / (([c7_node] : List TaskNode).length : ℝ)) - 1)) :=
  ⟨by simp, ((C7_local_tests [] [c7_node] 0).2.2 (by simp)).1⟩

/-- Binding after a successful `Except` computation applies the continuation. -/
theorem except_ok_bind {ε α β : Type} (a : α) (f : α → Except ε β) :
    (Except.ok a : Except ε α) >>= f = f a := rfl

/-- Binding after an error propagates the error. -/
theorem except_error_bind {ε α β : Type} (e : ε) (f : α → Except ε β) :
    (Except.error e : Except ε α) >>= f = .error e := rfl

/-- Processing any job in `_create_execution_slices` either raises or returns
`False`: the `reduce` with the `int` accumulator 0 raises `AttributeError` on
every non-empty candidate list, `job.execution.extend` raises on a
`SortedSet`, and an empty candidate list fails the runtime check unless the
WCET is 0 (in which case `extend` raises). -/
theorem create_slices_go_cons (jobs0 : List Job) (j : Job) (rest : List Job) :
    _create_execution_slices_go jobs0 (j :: rest) = .ok false ∨
    ∃ e, _create_execution_slices_go jobs0 (j :: rest) = .error e := by
  rw [_create_execution_slices_go]
  cases hg : _get_slices j jobs0 with
  | error e => right; exact ⟨e, rfl⟩
  | ok slices =>
    cases slices with
    | nil =>
      simp only [except_ok_bind, reduce_runtime, extend_execution, except_error_bind]
      by_cases hw : (0 : Int) = (j.task.wcet : Int)
      · right
        refine ⟨.attributeError, ?_⟩
        rw [if_pos hw]
      · left
        rw [if_neg hw, if_neg (by omega : ¬ ((j.task.wcet : Int) < (0 : Int)))]
        rfl
    | cons s ss => right; exact ⟨.attributeError, rfl⟩

/-- The per-core loop of `schedule` raises as soon as some pending core has a
non-empty job list (given that the ordering keeps non-empty lists non-empty).
-/
theorem schedule_go_raises (problem : Problem) (orig : List (Core × List Job))
    (ordering : List Job → List Job)
    (horder : ∀ l : List Job, l ≠ [] → ordering l ≠ []) :
    ∀ entries : List (Core × List Job), (∃ p ∈ entries, p.2 ≠ []) →
      ∃ e, schedule_go problem orig ordering entries = .error e := by
  intro entries
  induction entries with
  | nil => rintro ⟨p, hp, _⟩; cases hp
  | cons hd tl ih =>
    rintro ⟨p, hp, hpne⟩
    obtain ⟨c, js⟩ := hd
    cases hoj : ordering js with
    | nil =>
      have hjs : js = [] := by
        by_contra hne
        exact horder js hne hoj
      rw [schedule_go, hoj]
      have hok : _create_execution_slices [] = .ok true := rfl
      rw [hok]
      rcases List.mem_cons.mp hp with hphd | hptl
      · exact absurd (by rw [hphd]; exact hjs) hpne
      · exact ih ⟨p, hptl, hpne⟩
    | cons j rest =>
      have hcj : _create_execution_slices (ordering js) =
          _create_execution_slices_go (j :: rest) (j :: rest) := by rw [hoj]; rfl
      rcases create_slices_go_cons (j :: rest) j rest with hfalse | ⟨e, he⟩
      · refine ⟨.initialSchedulingFailed c.id, ?_⟩
        rw [schedule_go, hcj, hfalse]
        rfl
      · refine ⟨e, ?_⟩
        rw [schedule_go, hcj, he]
        rfl

/-- C2: on every core-to-jobs map in which some core carries at least one
job, `schedule` raises an exception instead of returning a `Solution`
(whatever the job states), for any ordering that keeps non-empty job lists
non-empty — as the two `sorted`-based orderings of the source do. -/
theorem C2_schedule_always_raises (core_jobs : List (Core × List Job)) (problem : Problem)
    (ordering : List Job → List Job)
    (horder : ∀ l : List Job, l ≠ [] → ordering l ≠ [])
    (hne : ∃ p ∈ core_jobs, p.2 ≠ []) :
    ∃ e, schedule core_jobs problem ordering = .error e :=
  schedule_go_raises problem core_jobs ordering horder core_jobs hne

/-- C2 witness: a single core with one fresh job makes `schedule` raise. -/
theorem C2_schedule_always_raises_witness :
    (∀ l : List Job, l ≠ [] → (id l : List Job) ≠ []) ∧
    (∃ p ∈ [(c2_core, [c2_job])], p.2 ≠ []) ∧
    ∃ e, schedule [(c2_core, [c2_job])] c2_problem id = .error e :=
  ⟨(fun _ h => h), ⟨(c2_core, [c2_job]), by simp, by simp⟩,
    C2_schedule_always_raises _ c2_problem id (fun _ h => h)
      ⟨(c2_core, [c2_job]), by simp, by simp⟩⟩

/-- Every member of a period list divides the folded lcm. -/
theorem dvd_foldr_lcm (l : List ℕ) : ∀ p ∈ l, p ∣ l.foldr Nat.lcm 1 := by
  induction l with
  | nil => simp
  | cons a t ih =>
    intro p hp
    rcases List.mem_cons.mp hp with h | h
    · subst h; exact Nat.dvd_lcm_left _ _
    · exact (ih p h).trans (Nat.dvd_lcm_right _ _)

/-- The folded lcm divides every common multiple of the period list. -/
theorem foldr_lcm_dvd (l : List ℕ) (m : ℕ) (h : ∀ p ∈ l, p ∣ m) :
    l.foldr Nat.lcm 1 ∣ m := by
  induction l with
  | nil => exact one_dvd m
  | cons a t ih => exact Nat.lcm_dvd (h a (by simp)) (ih (fun p hp => h p (by simp [hp])))

/-- C9: `_compute_hyperperiod` is the least common multiple of all task
periods (every period divides it, and it divides every common multiple), and
job expansion gives every task with positive period exactly
`hyperperiod / period` jobs, the k-th of which has `sched_window =
[k*period, k*period + deadline)`, `exec_window` equal to its `sched_window`,
and no execution slices. -/
theorem C9_job_expansion (apps : List App) :
    (∀ p ∈ graph_periods apps, p ∣ _compute_hyperperiod apps) ∧
    (∀ m : ℕ, (∀ p ∈ graph_periods apps, p ∣ m) → _compute_hyperperiod apps ∣ m) ∧
    (∀ a ∈ _create_jobs apps (_compute_hyperperiod apps), ∀ n ∈ a.tasks,
      0 < n.task.period →
      n.jobs.length = _compute_hyperperiod apps / n.task.period ∧
      ∀ k (hk : k < n.jobs.length),
        (n.jobs.get ⟨k, hk⟩).sched_window =
          ⟨((k * n.task.period : ℕ) : Int), ((k * n.task.period + n.task.deadline : ℕ) : Int)⟩ ∧
        (n.jobs.get ⟨k, hk⟩).exec_window = (n.jobs.get ⟨k, hk⟩).sched_window ∧
        (n.jobs.get ⟨k, hk⟩).execution = []) := by
  refine ⟨dvd_foldr_lcm _, (fun m h => foldr_lcm_dvd _ m h), ?_⟩
  intro a ha n hn _hp
  obtain ⟨a0, _ha0, rfl⟩ := List.mem_map.mp ha
  obtain ⟨n0, _hn0, rfl⟩ := List.mem_map.mp hn
  refine ⟨by simp [_create_jobs_for_task], ?_⟩
  intro k hk
  have hk' : k < _compute_hyperperiod apps / n0.task.period := by
    simpa [_create_jobs_for_task] using hk
  simp [_create_jobs_for_task, List.get_eq_getElem]

/-- C9 witness: one app with one task of period 10 over hyperperiod 10 gets
exactly one job. -/
theorem C9_job_expansion_witness :
    (c9_app ∈ _create_jobs c9_apps (_compute_hyperperiod c9_apps)) ∧
    (c9_node ∈ c9_app.tasks) ∧ (0 < c9_node.task.period) ∧
    c9_node.jobs.length = _compute_hyperperiod c9_apps / c9_node.task.period :=
  ⟨by decide, by decide, by decide,
    ((C9_job_expansion c9_apps).2.2 c9_app (by decide) c9_node (by decide) (by decide)).1⟩

/-- `lastD` succeeds exactly on the `getLast?` value. -/
theorem lastD_eq_ok {α : Type} (l : List α) (a : α) :
    lastD l = .ok a ↔ l.getLast? = some a := by
  induction l with
  | nil => simp [lastD]
  | cons x xs ih =>
    cases xs with
    | nil => simp [lastD]
    | cons y ys =>
      rw [lastD, List.getLast?_cons_cons]
      exact ih

/-- Characterisation of the adjacent-pair scan of `has_order_miss`: when every
task has a last job with a last slice, the scan returns `True` exactly when
some adjacent pair violates the last-job last-slice comparison. -/
theorem has_order_miss_pairs_char :
    ∀ l : List TaskNode, (∀ n ∈ l, ∃ s, last_exec_slice n = some s) →
    (has_order_miss_pairs l = .ok true ↔
      ∃ i t1 t2 s1 s2, l[i]? = some t1 ∧ l[i + 1]? = some t2 ∧
        last_exec_slice t1 = some s1 ∧ last_exec_slice t2 = some s2 ∧
        s2.start < s1.stop) := by
  intro l
  induction l with
  | nil =>
    intro _
    constructor
    · intro h; simp [has_order_miss_pairs, pure, Except.pure] at h
    · rintro ⟨i, t1, t2, s1, s2, h1, _⟩; simp at h1
  | cons t1 tl ih =>
    cases tl with
    | nil =>
      intro _
      constructor
      · intro h; simp [has_order_miss_pairs, pure, Except.pure] at h
      · rintro ⟨i, u1, u2, s1, s2, h1, h2, _⟩
        cases i with
        | zero => simp at h2
        | succ i' => simp at h1
    | cons t2 tl2 =>
      intro hdef
      obtain ⟨s1, hs1⟩ := hdef t1 (by simp)
      obtain ⟨s2, hs2⟩ := hdef t2 (by simp)
      obtain ⟨j1, hj1, hje1⟩ := Option.bind_eq_some.mp hs1
      obtain ⟨j2, hj2, hje2⟩ := Option.bind_eq_some.mp hs2
      have e1 : lastD t1.jobs = .ok j1 := (lastD_eq_ok _ _).mpr hj1
      have e2 : lastD t2.jobs = .ok j2 := (lastD_eq_ok _ _).mpr hj2
      have e3 : lastD j1.execution = .ok s1 := (lastD_eq_ok _ _).mpr hje1
      have e4 : lastD j2.execution = .ok s2 := (lastD_eq_ok _ _).mpr hje2
      rw [has_order_miss_pairs]
      simp only [e1, e2, e3, e4, except_ok_bind]
      by_cases hc : s2.start < s1.stop
      · rw [if_pos hc]
        constructor
        · intro _
          exact ⟨0, t1, t2, s1, s2, by simp, by simp, hs1, hs2, hc⟩
        · intro _; rfl
      · rw [if_neg hc]
        rw [ih (fun n hn => hdef n (by simp [hn]))]
        constructor
        · rintro ⟨i, u1, u2, v1, v2, h1, h2, h3, h4, h5⟩
          exact ⟨i + 1, u1, u2, v1, v2, by simpa using h1, by simpa using h2, h3, h4, h5⟩
        · rintro ⟨i, u1, u2, v1, v2, h1, h2, h3, h4, h5⟩
          cases i with
          | zero =>
            have hu1 : u1 = t1 := by simpa using h1.symm
            have hu2 : u2 = t2 := by simpa using h2.symm
            subst hu1; subst hu2
            rw [hs1] at h3
            rw [hs2] at h4
            cases h3; cases h4
            exact absurd h5 hc
          | succ i' =>
            exact ⟨i', u1, u2, v1, v2, by simpa using h1, by simpa using h2, h3, h4, h5⟩

/-- C5 counterexample: in `c5_app` (order flag set, two tasks, two jobs each),
the per-index rule is violated at job index 0 — task 2's job 0 starts its
first slice at 3, before task 1's job 0 stops its last slice at 5 — yet
`has_order_miss` reports no miss, because it only compares the LAST jobs'
last slices.  The claim's "reports an order miss exactly when the per-index
rule is violated" is therefore false; moreover `check_task_ordering` cannot
report anything, since it raises `AttributeError` on every graph. -/
theorem C5_per_index_counterexample :
    has_order_miss c5_app = .ok false ∧ ¬ claim_per_index_order_ok c5_app ∧
    check_task_ordering ⟨[c5_app], 20⟩ = .error .attributeError := by
  refine ⟨by decide, fun h => ?_, rfl⟩
  have hcon := h 0 0 c5_n1 c5_n2 c5_j10 c5_j20 ⟨0, 5⟩ ⟨3, 6⟩ rfl rfl rfl rfl rfl rfl
  exact absurd hcon (by decide)

/-- C5 (amended): for an app with the order flag and at least two tasks whose
tasks all have a last job with a last slice, `has_order_miss` reports a miss
exactly when some adjacent task pair `(i, i+1)` has the START of the last
slice of task i+1's LAST job before the stop of the last slice of task i's
last job (only the last job index is inspected, and the last — not the first
— slice's start is compared); and `Graph.check_task_ordering` raises
`AttributeError` on every graph, because it iterates the `NamedTuple` fields
instead of the apps. -/
theorem C5_order_miss_last_pair :
    (∀ app : App, app.order = true → 2 ≤ app.tasks.length →
      (∀ n ∈ app.tasks, ∃ s, last_exec_slice n = some s) →
      (has_order_miss app = .ok true ↔
        ∃ i t1 t2 s1 s2, app.tasks[i]? = some t1 ∧ app.tasks[i + 1]? = some t2 ∧
          last_exec_slice t1 = some s1 ∧ last_exec_slice t2 = some s2 ∧
          s2.start < s1.stop)) ∧
    (∀ g : Graph, check_task_ordering g = .error .attributeError) := by
  constructor
  · intro app ho hlen hdef
    rw [has_order_miss,
      if_neg (by push_neg; exact ⟨by omega, by simp [ho]⟩)]
    exact has_order_miss_pairs_char app.tasks hdef
  · intro g; rfl

/-- C5 witness: the characterisation applied to the concrete ordered app. -/
theorem C5_order_miss_last_pair_witness :
    (c5_app.order = true) ∧ (2 ≤ c5_app.tasks.length) ∧
    (∀ n ∈ c5_app.tasks, ∃ s, last_exec_slice n = some s) ∧
    (has_order_miss c5_app = .ok true ↔
      ∃ i t1 t2 s1 s2, c5_app.tasks[i]? = some t1 ∧ c5_app.tasks[i + 1]? = some t2 ∧
        last_exec_slice t1 = some s1 ∧ last_exec_slice t2 = some s2 ∧
        s2.start < s1.stop) := by
  have hdef : ∀ n ∈ c5_app.tasks, ∃ s, last_exec_slice n = some s := by
    intro n hn
    fin_cases hn
    · exact ⟨⟨12, 14⟩, rfl⟩
    · exact ⟨⟨14, 16⟩, rfl⟩
  exact ⟨rfl, by decide, hdef, C5_order_miss_last_pair.1 c5_app rfl (by decide) hdef⟩

/-- `argmin_by` on a non-empty list returns an in-range index together with
the element at that index. -/
theorem argmin_by_spec {β : Type} (f : β → ℚ) (l : List β) (hl : l ≠ []) :
    ∃ i x, argmin_by f l = some (i, x) ∧ l[i]? = some x := by
  induction l with
  | nil => exact absurd rfl hl
  | cons a t ih =>
    cases ht : argmin_by f t with
    | none => exact ⟨0, a, by rw [argmin_by, ht], by simp⟩
    | some p =>
      obtain ⟨j, y⟩ := p
      have htne : t ≠ [] := by
        intro h
        rw [h] at ht
        simp [argmin_by] at ht
      obtain ⟨i', x', hsome, hget⟩ := ih htne
      have hxy : (i', x') = (j, y) := Option.some.inj (hsome.symm.trans ht)
      cases hxy
      by_cases hc : f y < f a
      · exact ⟨j + 1, y, by rw [argmin_by, ht]; simp [hc], by simpa using hget⟩
      · exact ⟨0, a, by rw [argmin_by, ht]; simp [hc], by simp⟩

/-- Appending one task to the core at a valid index only adds that task to the
bag of tasks carried by the cores. -/
theorem set_flatten_perm (cores : List Core) (i : ℕ) (core : Core) (node : TaskNode)
    (h : cores[i]? = some core) :
    List.Perm
      ((cores.set i { core with tasks := core.tasks ++ [node] }).flatMap Core.tasks)
      (cores.flatMap Core.tasks ++ [node]) := by
  induction cores generalizing i with
  | nil => simp at h
  | cons c cs ih =>
    cases i with
    | zero =>
      have hc : c = core := by simpa using h
      subst hc
      simp only [List.set_cons_zero, List.flatMap_cons]
      rw [List.append_assoc, List.append_assoc]
      exact List.Perm.append_left _ List.perm_append_comm
    | succ i' =>
      have h' : cs[i']? = some core := by simpa using h
      simp only [List.set_cons_succ, List.flatMap_cons]
      rw [List.append_assoc]
      exact List.Perm.append_left _ (ih i' h')

/-- Folding `place_task` over a task list on a CPU with at least one core
succeeds, keeps the CPU's identity, apps and core count, and adds exactly the
placed tasks to the bag of tasks on the cores. -/
theorem place_fold_spec {α : Type} :
    ∀ (nodes : List TaskNode) (c : Processor), c.cores ≠ [] →
    ∃ c', (nodes.foldlM (place_task (α := α)) c) = .ok c' ∧
      c'.id = c.id ∧ c'.apps = c.apps ∧ c'.cores.length = c.cores.length ∧
      List.Perm (c'.cores.flatMap Core.tasks) (c.cores.flatMap Core.tasks ++ nodes) := by
  intro nodes
  induction nodes with
  | nil =>
    intro c _
    exact ⟨c, rfl, rfl, rfl, rfl, by simp⟩
  | cons n ns ih =>
    intro c hc
    obtain ⟨i, core, hmin, hget⟩ := argmin_by_spec Core.workload c.cores hc
    have hplace : place_task (α := α) c n =
        .ok { c with cores := c.cores.set i { core with tasks := core.tasks ++ [n] } } := by
      rw [place_task]
      rw [show min_core_idx c.cores = some (i, core) from hmin]
    have hc1len :
        ({ c with cores := c.cores.set i { core with tasks := core.tasks ++ [n] } } :
          Processor).cores.length = c.cores.length := by
      simp
    have hc1ne :
        ({ c with cores := c.cores.set i { core with tasks := core.tasks ++ [n] } } :
          Processor).cores ≠ [] := by
      intro h
      apply hc
      apply List.length_eq_zero.mp
      rw [← hc1len, h]
      rfl
    obtain ⟨c', hfold, hid, happs, hlen, hperm⟩ := ih _ hc1ne
    refine ⟨c', ?_, by simpa using hid, by simpa using happs, by rw [hlen, hc1len], ?_⟩
    · rw [List.foldlM_cons, hplace, except_ok_bind]
      exact hfold
    · refine hperm.trans ?_
      refine ((set_flatten_perm c.cores i core n hget).append_right ns).trans ?_
      rw [List.append_assoc]
      simp

/-- `accept_app` on a CPU with at least one core succeeds, adds the app to the
CPU and adds exactly the app's tasks to the bag of tasks on the cores. -/
theorem accept_app_spec {α : Type} (cpu : Processor) (app : App) (hc : cpu.cores ≠ []) :
    ∃ cpu', accept_app (α := α) cpu app = .ok cpu' ∧
      cpu'.id = cpu.id ∧ cpu'.apps = cpu.apps ++ [app] ∧
      cpu'.cores.length = cpu.cores.length ∧
      List.Perm (cpu'.cores.flatMap Core.tasks) (cpu.cores.flatMap Core.tasks ++ app.tasks) := by
  obtain ⟨c', h1, h2, h3, h4, h5⟩ :=
    place_fold_spec (α := α) app.tasks { cpu with apps := cpu.apps ++ [app] } (by simpa using hc)
  exact ⟨c', h1, by simpa using h2, by simpa using h3, by simpa using h4, by simpa using h5⟩

/-- C4 (amended): at each step of the initial mapping, the popped least-loaded
CPU (provided it has at least one core and the local test returns without
raising) admits the app iff the CPU holds no apps yet or the policy's local
test returns `None` when applied to the CPU's cores together with THE NEW
APP'S TASKS ALONE — the tasks already mapped to the CPU are not passed to the
test; on rejection the error identifies the app, the CPU and the violation
pair; on acceptance the app is added to the CPU and exactly the app's tasks
are appended to the CPU's cores, each to the currently least-loaded core. -/
theorem C4_admission_per_app_tasks {α : Type} [LinearOrderedField α]
    (alg : SchedAlgorithm α) (queue : List Processor) (app : App)
    (cpu : Processor) (rest : List Processor) (r : Option (α × α))
    (hget : pq_get (α := α) queue = .ok (cpu, rest))
    (hcheck : alg.local_scheduling_check cpu.cores app.tasks alg.security_margin = .ok r)
    (hcores : cpu.cores ≠ []) :
    ((cpu.apps = [] ∨ r = none) →
      ∃ cpu', map_step alg queue app = .ok (rest ++ [cpu']) ∧
        cpu'.apps = cpu.apps ++ [app] ∧
        List.Perm (cpu'.cores.flatMap Core.tasks)
          (cpu.cores.flatMap Core.tasks ++ app.tasks)) ∧
    (cpu.apps ≠ [] → ∀ v, r = some v →
      map_step alg queue app = .error (.initialMappingFailed app.name cpu.id v)) := by
  obtain ⟨cpu', hacc, _hid, happs, _hlen, hperm⟩ := accept_app_spec (α := α) cpu app hcores
  constructor
  · intro hadm
    refine ⟨cpu', ?_, happs, hperm⟩
    simp only [map_step, hget, except_ok_bind]
    rcases hadm with hemp | hnone
    · rw [if_pos hemp, hacc, except_ok_bind]; rfl
    · by_cases hemp : cpu.apps = []
      · rw [if_pos hemp, hacc, except_ok_bind]; rfl
      · rw [if_neg hemp, hcheck, hnone, hacc, except_ok_bind]; rfl
  · intro hne v hv
    subst hv
    simp only [map_step, hget, except_ok_bind]
    rw [if_neg hne, hcheck]

/-- C4 counterexample: with one CPU (one core) and apps "A", "B" each of
workload 1/2 under EDF (margin 0.9), the union of the CPU's tasks and app
"B"'s tasks has workload 1 > 0.9, so the claim's union-based admission
condition rejects app "B" and requires `mapping` to fail; the code instead
tests app "B"'s tasks alone (workload 1/2 ≤ 0.9) and accepts, completing the
mapping with both tasks on the core. -/
theorem C4_union_admission_counterexample :
    mapping c4_arch [c4_appA, c4_appB] (edf_algorithm ℚ) =
      .ok [(⟨0, [c4_nodeA, c4_nodeB]⟩, [])] ∧
    ¬ claim_union_admits (edf_algorithm ℚ) c4_cpu_afterA c4_appB := by
  constructor
  · have hstepA : map_step (edf_algorithm ℚ) c4_arch c4_appA = .ok [c4_cpu_afterA] := by
      decide
    have hchk : (edf_algorithm ℚ).local_scheduling_check c4_cpu_afterA.cores c4_appB.tasks
        (edf_algorithm ℚ).security_margin = .ok none := by
      show Except.ok (_local_check_edf c4_cpu_afterA.cores c4_appB.tasks ((9 : ℚ) / 10)) =
        .ok none
      rw [_local_check_edf, _local_check,
        if_neg (by norm_num [fsum_workloads, c4_cpu_afterA, c4_appB, c4_nodeB, Task.workload])]
    have hstepB : map_step (edf_algorithm ℚ) [c4_cpu_afterA] c4_appB =
        .ok [⟨0, [⟨0, [c4_nodeA, c4_nodeB]⟩], [c4_appA, c4_appB]⟩] := by
      simp only [map_step,
        show pq_get (α := ℚ) [c4_cpu_afterA] = .ok (c4_cpu_afterA, ([] : List Processor))
          from rfl,
        except_ok_bind]
      rw [if_neg (by decide), hchk]
      rfl
    rw [mapping, List.foldlM_cons, hstepA, except_ok_bind, List.foldlM_cons, hstepB,
      except_ok_bind]
    rfl
  · intro hu
    rcases hu with h | h
    · exact absurd h (by decide)
    · have h' : _local_check_edf c4_cpu_afterA.cores
          (c4_cpu_afterA.cores.flatMap Core.tasks ++ c4_appB.tasks) ((9 : ℚ) / 10) = none :=
        Except.ok.inj h
      rw [_local_check_edf, _local_check,
        if_pos (by norm_num [fsum_workloads, c4_cpu_afterA, c4_appB, c4_nodeA, c4_nodeB,
          Task.workload])] at h'
      cases h'

/-- C4 witness: the amended step characterisation applied to the empty CPU and
app "A". -/
theorem C4_admission_per_app_tasks_witness :
    (pq_get (α := ℚ) c4_arch = .ok (c4_cpu0, [])) ∧
    ((edf_algorithm ℚ).local_scheduling_check c4_cpu0.cores c4_appA.tasks
      (edf_algorithm ℚ).security_margin = .ok none) ∧
    (c4_cpu0.cores ≠ []) ∧
    ∃ cpu', map_step (edf_algorithm ℚ) c4_arch c4_appA = .ok ([] ++ [cpu']) ∧
      cpu'.apps = c4_cpu0.apps ++ [c4_appA] ∧
      List.Perm (cpu'.cores.flatMap Core.tasks)
        (c4_cpu0.cores.flatMap Core.tasks ++ c4_appA.tasks) := by
  have hchk : (edf_algorithm ℚ).local_scheduling_check c4_cpu0.cores c4_appA.tasks
      (edf_algorithm ℚ).security_margin = .ok none := by
    show Except.ok (_local_check_edf c4_cpu0.cores c4_appA.tasks ((9 : ℚ) / 10)) = .ok none
    rw [_local_check_edf, _local_check,
      if_neg (by norm_num [fsum_workloads, c4_cpu0, c4_appA, c4_nodeA, Task.workload])]
  exact ⟨rfl, hchk, by decide,
    (C4_admission_per_app_tasks (edf_algorithm ℚ) c4_arch c4_appA c4_cpu0 [] none
      rfl hchk (by decide)).1 (Or.inl rfl)⟩

end Thesis
